import Mathlib

/-!
Verification of the deterministic voice-intelligence pipeline.

This file gives a shallow embedding of the core of the repository —
`src/agent/graph.py` (router / tool dispatcher / answer composer / output
verifier and the compiled LangGraph wiring), `src/tools/calculator.py`
(natural-language arithmetic normalizer and restricted evaluator) and
`src/tools/notes.py` (in-memory note store) — and proves or refutes the
frozen claims about it.

Strings are embedded as `List Char` (Python strings are sequences of code
points, so `List Char` and Python `str` agree on length, slicing and
comparison for the material here).  The regular expressions used by the
source are all of the shape "word-boundary-delimited alternation of literal
phrases" (plus a digit-token pattern and character classes); they are
embedded by an explicit word-boundary matcher rather than a general regex
engine, which is exactly the fragment the source uses.
-/

namespace VoiceAgent

/-- Convert a Lean string literal to the `List Char` representation used
throughout this development. -/
def S (s : String) : List Char := s.data

/-- Python `\s` / `str.strip` whitespace (space, tab, newline, CR, VT, FF). -/
def isSpaceCh (c : Char) : Bool :=
  c = ' ' || c = '\t' || c = '\n' || c = '\r' || c = '\x0b' || c = '\x0c'

/-- Python regex `\w` word character (inputs here are ASCII after lowering). -/
def isWordCh (c : Char) : Bool := c.isAlphanum || c = '_'

/-- Python `str.lstrip` on our character lists. -/
def lstripL (l : List Char) : List Char := l.dropWhile isSpaceCh

/-- Python `str.rstrip` on our character lists. -/
def rstripL (l : List Char) : List Char := (l.reverse.dropWhile isSpaceCh).reverse

/-- Python `str.strip` on our character lists. -/
def stripL (l : List Char) : List Char := lstripL (rstripL l)

/-- Python `str.lower` (ASCII material only). -/
def lowerL (l : List Char) : List Char := l.map Char.toLower

/-- One pass of run-collapsing used by `re.sub(r"\s+", " ", s)`: a maximal run
of whitespace becomes a single space.  The boolean records whether we are
inside a run. -/
def collapseWsGo : Bool → List Char → List Char
  | _, [] => []
  | inRun, c :: rest =>
    if isSpaceCh c then
      if inRun then collapseWsGo true rest else ' ' :: collapseWsGo true rest
    else c :: collapseWsGo false rest

/-- `re.sub(r"\s+", " ", s)`. -/
def collapseWs (s : List Char) : List Char := collapseWsGo false s

/-- ASCII lowercase letter, the regex class `[a-z]`. -/
def isLowerAZ (c : Char) : Bool := 'a' ≤ c && c ≤ 'z'

/-- Run-replacement for `re.sub(r"[a-z]+", " ", s)`: each maximal run of
lowercase letters becomes a single space. -/
def stripLettersGo : Bool → List Char → List Char
  | _, [] => []
  | inRun, c :: rest =>
    if isLowerAZ c then
      if inRun then stripLettersGo true rest else ' ' :: stripLettersGo true rest
    else c :: stripLettersGo false rest

/-- `re.sub(r"[a-z]+", " ", s)`. -/
def stripLetters (s : List Char) : List Char := stripLettersGo false s

/-- Python `str.split()` (split on whitespace runs, dropping empty pieces).
The accumulator holds the current word reversed. -/
def splitWsGo : List Char → List Char → List (List Char)
  | acc, [] => if acc = [] then [] else [acc.reverse]
  | acc, c :: rest =>
    if isSpaceCh c then
      if acc = [] then splitWsGo [] rest else acc.reverse :: splitWsGo [] rest
    else splitWsGo (c :: acc) rest

/-- Python `str.split()`. -/
def splitWs (s : List Char) : List (List Char) := splitWsGo [] s

/-- `" ".join(words)`. -/
def joinSpace : List (List Char) → List Char
  | [] => []
  | [w] => w
  | w :: ws => w ++ ' ' :: joinSpace ws

/-- `"\n".join(lines)`. -/
def joinNl : List (List Char) → List Char
  | [] => []
  | [w] => w
  | w :: ws => w ++ '\n' :: joinNl ws

/-- Decimal digit character for a value below ten. -/
def digitChar (d : Nat) : Char := Char.ofNat (48 + d)

/-- Decimal digit characters of a natural number (fuel-based so that it
unfolds by kernel reduction; the fuel bounds the number of digits). -/
def natDigitsAux : Nat → Nat → List Char
  | 0, _ => []
  | fuel + 1, n =>
    if n < 10 then [digitChar n]
    else natDigitsAux fuel (n / 10) ++ [digitChar (n % 10)]

/-- Python `str(n)` for a natural number. -/
def natDigits (n : Nat) : List Char := natDigitsAux (n + 1) n

/-- Python `str(i)` for an integer. -/
def intStr (i : Int) : List Char :=
  if i < 0 then '-' :: natDigits i.natAbs else natDigits i.natAbs

/-! ## Word-boundary regex fragment

All phrase patterns in the source are `\b(alt1|alt2|...)\b` over literal
phrases.  `wordMatchAt s pat i` is: the literal `pat` occurs at index `i`
of `s` with a `\b` boundary on each side.  `\b` holds between two positions
iff exactly one of the adjacent characters is a word character (positions
outside the string count as non-word). -/

/-- Is the character at index `i` (if any) a word character? -/
def wordAt (s : List Char) (i : Nat) : Bool :=
  match s.get? i with
  | some c => isWordCh c
  | none => false

/-- Python regex `\b` at position `i` (between indices `i - 1` and `i`). -/
def boundary (s : List Char) (i : Nat) : Bool :=
  (match i with
   | 0 => false
   | j + 1 => wordAt s j) != wordAt s i

/-- Literal phrase `pat` matches at index `i` of `s` with `\b` on each side. -/
def wordMatchAt (s pat : List Char) (i : Nat) : Bool :=
  pat.isPrefixOf (s.drop i) && boundary s i && boundary s (i + pat.length)

/-- `re.search(r"\b(a1|...|an)\b", s)` as a boolean. -/
def reSearchAlts (alts : List (List Char)) (s : List Char) : Bool :=
  (List.range (s.length + 1)).any (fun i => alts.any (fun a => wordMatchAt s a i))

/-- Leftmost match of the alternation: the smallest index at which some
alternative matches, paired with the first alternative (in pattern order)
matching there — exactly Python `re` alternation semantics. -/
def reFirstMatch (alts : List (List Char)) (s : List Char) : Option (Nat × List Char) :=
  (List.range (s.length + 1)).findSome? (fun i =>
    (alts.find? (fun a => wordMatchAt s a i)).map (fun a => (i, a)))

/-- `re.sub(r"\b(a1|...|an)\b", "", s, count=1)`. -/
def reSubOnce (alts : List (List Char)) (s : List Char) : List Char :=
  match reFirstMatch alts s with
  | none => s
  | some (i, a) => s.take i ++ s.drop (i + a.length)

/-- First index `≥ start` at which `pat` matches in `s` with boundaries. -/
def findFrom (s pat : List Char) (start : Nat) : Option Nat :=
  (List.range (s.length + 1)).find? (fun i => decide (start ≤ i) && wordMatchAt s pat i)

/-- Global substitution `re.sub(r"\bpat\b", repl, s)`: matches are found left
to right on the original string (boundaries refer to the original string) and
never overlap.  Fuel-based; one unit of fuel per replacement suffices. -/
def reSubAllAux (s pat repl : List Char) : Nat → Nat → List Char
  | _, 0 => []
  | start, fuel + 1 =>
    match findFrom s pat start with
    | none => s.drop start
    | some i => (s.drop start).take (i - start) ++ repl ++
        reSubAllAux s pat repl (i + pat.length) fuel

/-- `re.sub(r"\bpat\b", repl, s)` (all occurrences). -/
def reSubAll (pat repl s : List Char) : List Char :=
  reSubAllAux s pat repl 0 (s.length + 1)

/-! ## Calculator (`src/tools/calculator.py`) -/

/-- `_ALLOWED` from `calculator.py`: the character set accepted by `calc`. -/
def _ALLOWED : List Char := S "0123456789+-*/(). %"

/-- `_WORD_OPERATORS`: spoken operator phrases and their symbols, in source
order (each is substituted globally, in this order). -/
def _WORD_OPERATORS : List (List Char × List Char) :=
  [ (S "plus", S "+"), (S "minus", S "-"), (S "over", S "/"),
    (S "divided by", S "/"), (S "divide by", S "/"), (S "times", S "*"),
    (S "multiplied by", S "*"), (S "multiply by", S "*"), (S "modulo", S "%"),
    (S "mod", S "%"), (S "power of", S "**"), (S "to the power of", S "**"),
    (S "raised to", S "**") ]

/-- `_NUM_WORDS`: unit and tens words with their values. -/
def _NUM_WORDS : List (List Char × Nat) :=
  [ (S "zero", 0), (S "one", 1), (S "two", 2), (S "three", 3), (S "four", 4),
    (S "five", 5), (S "six", 6), (S "seven", 7), (S "eight", 8), (S "nine", 9),
    (S "ten", 10), (S "eleven", 11), (S "twelve", 12), (S "thirteen", 13),
    (S "fourteen", 14), (S "fifteen", 15), (S "sixteen", 16), (S "seventeen", 17),
    (S "eighteen", 18), (S "nineteen", 19), (S "twenty", 20), (S "thirty", 30),
    (S "forty", 40), (S "fifty", 50), (S "sixty", 60), (S "seventy", 70),
    (S "eighty", 80), (S "ninety", 90) ]

/-- `_SCALE_WORDS`: scale words with their multipliers. -/
def _SCALE_WORDS : List (List Char × Nat) :=
  [ (S "hundred", 100), (S "thousand", 1000), (S "million", 1000000) ]

/-- `_IGNORE_WORDS`: the word "and" is ignored inside number-word runs. -/
def isIgnoreWord (w : List Char) : Bool := w == S "and"

/-- Value of a unit/tens word, if any. -/
def lookupNum (w : List Char) : Option Nat :=
  (_NUM_WORDS.find? (fun p => p.1 == w)).map (·.2)

/-- Multiplier of a scale word, if any. -/
def lookupScale (w : List Char) : Option Nat :=
  (_SCALE_WORDS.find? (fun p => p.1 == w)).map (·.2)

/-- `_ALL_NUMBER_WORDS` membership. -/
def isNumberWord (w : List Char) : Bool :=
  (lookupNum w).isSome || (lookupScale w).isSome || isIgnoreWord w

/-- One loop iteration of `_words_sequence_to_int`: the state is the pair
`(total, current)`; `none` aborts the whole conversion (unknown word). -/
def wordStep : Nat × Nat → List Char → Option (Nat × Nat)
  | (total, current), w =>
    if isIgnoreWord w then some (total, current)
    else
      match lookupNum w with
      | some n => some (total, current + n)
      | none =>
        match lookupScale w with
        | some scale =>
          let current' := (if current = 0 then 1 else current) * scale
          if 1000 ≤ scale then some (total + current', 0) else some (total, current')
        | none => none

/-- `_words_sequence_to_int(words)`: fold `wordStep` from `(0, 0)` and return
`total + current`. -/
def _words_sequence_to_int (ws : List (List Char)) : Option Nat :=
  (List.foldlM wordStep ((0 : Nat), (0 : Nat)) ws).map (fun tc => tc.1 + tc.2)

/-- Flush of the pending number-word run in `_convert_number_words`: a run
that converts becomes one digit word, a run that aborts is emitted unchanged. -/
def flushSeq (seq : List (List Char)) : List (List Char) :=
  if seq = [] then []
  else
    match _words_sequence_to_int seq with
    | some n => [natDigits n]
    | none => seq

/-- Word loop of `_convert_number_words`: number words accumulate in `seq`,
any other word flushes the run first. -/
def convGo (seq : List (List Char)) : List (List Char) → List (List Char)
  | [] => flushSeq seq
  | w :: ws =>
    if isNumberWord w then convGo (seq ++ [w]) ws
    else flushSeq seq ++ w :: convGo [] ws

/-- `_convert_number_words(expr)`. -/
def _convert_number_words (expr : List Char) : List Char :=
  joinSpace (convGo [] (splitWs expr))

/-- `_replace_word_operators(expr)`: lower-case, hyphens to spaces, strip
sentence punctuation, convert number words, substitute operator phrases,
blank remaining letter runs, collapse whitespace, strip. -/
def _replace_word_operators (expr : List Char) : List Char :=
  let n1 := lowerL expr
  let n2 := n1.map (fun c => if c = '-' then ' ' else c)
  let n3 := n2.filter (fun c => !(c ∈ ['?', '!', ',', '.', '\x27']))
  let n4 := _convert_number_words n3
  let n5 := _WORD_OPERATORS.foldl
    (fun s p => reSubAll p.1 (' ' :: p.2 ++ [' ']) s) n4
  let n6 := stripLetters n5
  let n7 := collapseWs n6
  stripL n7

/-! ## Restricted Python `eval` on arithmetic expressions

`calc` evaluates the sanitized expression with Python `eval` over an empty
builtin environment.  After the character filter the expression consists of
digits, `+ - * / % ( ) .` and spaces, so the reachable language is Python
arithmetic expressions.  We embed the integer fragment: tokenizer, a
precedence-climbing parser (Python precedence: `+ -` < `* / // %` < unary
`+ -` < `**`, with `**` right-associative), and big-integer evaluation.
Python float values are not representable here (floating point); any
expression whose evaluation would produce a float is mapped to the
distinguished error `floatMsg`.  No claim exercises the float fragment.
Parse failures are reported uniformly with the CPython message for a
`SyntaxError` raised by `eval` of an invalid expression. -/

/-- Tokens of the restricted arithmetic language. -/
inductive Tok
  | int (n : Nat)
  | float
  | plus | minus | star | slash | dstar | dslash | pct | lpar | rpar
  deriving DecidableEq

/-- `str(SyntaxError)` as produced by CPython for `eval` of a malformed
expression string. -/
def pySyntaxMsg : List Char := S "invalid syntax (<string>, line 1)"

/-- Error used for results outside the modelled integer fragment. -/
def floatMsg : List Char := S "float result (outside the modelled integer fragment)"

/-- Numeric value of a digit run. -/
def digitsVal (ds : List Char) : Nat :=
  ds.foldl (fun n c => n * 10 + (c.toNat - 48)) 0

/-- Tokenizer (fuel-based; fuel `length + 1` suffices since every step
consumes at least one character). -/
def lexGo : Nat → List Char → Except (List Char) (List Tok)
  | 0, _ => .error pySyntaxMsg
  | _ + 1, [] => .ok []
  | fuel + 1, c :: rest =>
    if isSpaceCh c then lexGo fuel rest
    else if c.isDigit then
      let ds := (c :: rest).takeWhile Char.isDigit
      let rest' := (c :: rest).dropWhile Char.isDigit
      match rest' with
      | '.' :: r2 =>
        match lexGo fuel (r2.dropWhile Char.isDigit) with
        | .ok ts => .ok (Tok.float :: ts)
        | .error e => .error e
      | _ =>
        match lexGo fuel rest' with
        | .ok ts => .ok (Tok.int (digitsVal ds) :: ts)
        | .error e => .error e
    else if c = '.' then
      match rest with
      | d :: _ =>
        if d.isDigit then
          match lexGo fuel (rest.dropWhile Char.isDigit) with
          | .ok ts => .ok (Tok.float :: ts)
          | .error e => .error e
        else .error pySyntaxMsg
      | [] => .error pySyntaxMsg
    else
      let tk : Option (Tok × List Char) :=
        match c, rest with
        | '*', '*' :: r => some (Tok.dstar, r)
        | '/', '/' :: r => some (Tok.dslash, r)
        | '*', _ => some (Tok.star, rest)
        | '/', _ => some (Tok.slash, rest)
        | '+', _ => some (Tok.plus, rest)
        | '-', _ => some (Tok.minus, rest)
        | '%', _ => some (Tok.pct, rest)
        | '(', _ => some (Tok.lpar, rest)
        | ')', _ => some (Tok.rpar, rest)
        | _, _ => none
      match tk with
      | some (t, r) =>
        match lexGo fuel r with
        | .ok ts => .ok (t :: ts)
        | .error e => .error e
      | none => .error pySyntaxMsg

/-- Tokenize a character list. -/
def lex (s : List Char) : Except (List Char) (List Tok) := lexGo (s.length + 1) s

/-- Abstract syntax of the restricted expressions. -/
inductive PExpr
  | num (n : Nat)
  | fnum
  | neg (e : PExpr)
  | pos (e : PExpr)
  | add (a b : PExpr)
  | sub (a b : PExpr)
  | mul (a b : PExpr)
  | div (a b : PExpr)
  | fdiv (a b : PExpr)
  | mod (a b : PExpr)
  | pow (a b : PExpr)
  deriving DecidableEq

/-- Binding power of a binary operator token (Python precedence). -/
def binPrec : Tok → Option Nat
  | .plus => some 10
  | .minus => some 10
  | .star => some 20
  | .slash => some 20
  | .dslash => some 20
  | .pct => some 20
  | .dstar => some 40
  | _ => none

/-- Minimum precedence for the right operand: left-associative operators
climb one above their own level, `**` is right-associative. -/
def rhsPrec (t : Tok) (p : Nat) : Nat := if t = Tok.dstar then p else p + 1

/-- Build the AST node for a binary operator token. -/
def mkBin (t : Tok) (a b : PExpr) : PExpr :=
  match t with
  | .plus => .add a b
  | .minus => .sub a b
  | .star => .mul a b
  | .slash => .div a b
  | .dslash => .fdiv a b
  | .pct => .mod a b
  | .dstar => .pow a b
  | _ => .num 0

/-- Precedence-climbing parser.  `parseC fuel minPrec none ts` parses a fresh
expression of precedence at least `minPrec`; `parseC fuel minPrec (some lhs) ts`
continues the binary-operator loop with accumulated left operand `lhs`.
Unary `+`/`-` has precedence 30 (between the multiplicative level and `**`),
matching Python. -/
def parseC : Nat → Nat → Option PExpr → List Tok → Except (List Char) (PExpr × List Tok)
  | 0, _, _, _ => .error pySyntaxMsg
  | fuel + 1, minPrec, none, ts =>
    match ts with
    | Tok.minus :: r =>
      match parseC fuel 30 none r with
      | .ok (e, r2) => parseC fuel minPrec (some (PExpr.neg e)) r2
      | .error m => .error m
    | Tok.plus :: r =>
      match parseC fuel 30 none r with
      | .ok (e, r2) => parseC fuel minPrec (some (PExpr.pos e)) r2
      | .error m => .error m
    | Tok.int n :: r => parseC fuel minPrec (some (PExpr.num n)) r
    | Tok.float :: r => parseC fuel minPrec (some PExpr.fnum) r
    | Tok.lpar :: r =>
      match parseC fuel 0 none r with
      | .ok (e, Tok.rpar :: r2) => parseC fuel minPrec (some e) r2
      | .ok _ => .error pySyntaxMsg
      | .error m => .error m
    | _ => .error pySyntaxMsg
  | fuel + 1, minPrec, some lhs, ts =>
    match ts with
    | [] => .ok (lhs, [])
    | op :: r =>
      match binPrec op with
      | some p =>
        if p < minPrec then .ok (lhs, ts)
        else
          match parseC fuel (rhsPrec op p) none r with
          | .ok (rhs, r2) => parseC fuel minPrec (some (mkBin op lhs rhs)) r2
          | .error m => .error m
      | none => .ok (lhs, ts)

/-- Parse a complete token list as one expression. -/
def parseToks (ts : List Tok) : Except (List Char) PExpr :=
  match parseC (2 * ts.length + 8) 0 none ts with
  | .ok (e, []) => .ok e
  | .ok _ => .error pySyntaxMsg
  | .error m => .error m

/-- Evaluate the integer fragment with Python semantics: `//` is floor
division, `%` takes the sign of the divisor, `**` with negative exponent and
every use of true division `/` produce floats and are mapped to `floatMsg`;
division or modulo by zero raise `ZeroDivisionError`. -/
def pyEvalE : PExpr → Except (List Char) Int
  | .num n => .ok n
  | .fnum => .error floatMsg
  | .neg e => (pyEvalE e).map (fun v => -v)
  | .pos e => pyEvalE e
  | .add a b => do pure ((← pyEvalE a) + (← pyEvalE b))
  | .sub a b => do pure ((← pyEvalE a) - (← pyEvalE b))
  | .mul a b => do pure ((← pyEvalE a) * (← pyEvalE b))
  | .div a b => do
    let _ ← pyEvalE a
    let vb ← pyEvalE b
    if vb = 0 then .error (S "division by zero") else .error floatMsg
  | .fdiv a b => do
    let va ← pyEvalE a
    let vb ← pyEvalE b
    if vb = 0 then .error (S "integer division or modulo by zero")
    else pure (Int.fdiv va vb)
  | .mod a b => do
    let va ← pyEvalE a
    let vb ← pyEvalE b
    if vb = 0 then .error (S "integer modulo by zero")
    else pure (Int.fmod va vb)
  | .pow a b => do
    let va ← pyEvalE a
    let vb ← pyEvalE b
    if vb < 0 then .error floatMsg else pure (va ^ vb.toNat)

/-- `eval(expression, {"__builtins__": None}, {"math": math})` on the
reachable arithmetic language. -/
def pyEval (s : List Char) : Except (List Char) Int := do
  pyEvalE (← parseToks (← lex s))

/-- Result payload of `calc`: `{"result": v}` or `{"error": msg}`. -/
inductive CalcRes
  | ok (v : Int)
  | err (msg : List Char)
  deriving DecidableEq

/-- `calc(expression)` from `calculator.py` (named `calcFn` because `calc` is
a Lean keyword): sanitize, reject empty or non-allowed characters with
`{"error": "invalid characters"}` and status 400, otherwise evaluate. -/
def calcFn (expression : List Char) : CalcRes × Nat :=
  let e := _replace_word_operators (stripL expression)
  if e = [] || !(e.all (fun c => _ALLOWED.contains c)) then
    (.err (S "invalid characters"), 400)
  else
    match pyEval e with
    | .ok v => (.ok v, 200)
    | .error m => (.err m, 400)

/-! ## Note store (`src/tools/notes.py`)

The store `_NOTES` is process-wide mutable state; it is embedded by explicit
state passing: each operation takes the current note list and returns its
result together with the new list. -/

/-- Result of `add_note`: the `{"ok": ..., "count": ...}` payload. -/
structure AddRes where
  ok : Bool
  count : Nat
  deriving DecidableEq

/-- Result of `list_notes`: the `{"ok": ..., "count": ..., "notes": ...}`
payload (`list(_NOTES)` is a copy, which explicit state passing models for
free). -/
structure ListRes where
  ok : Bool
  count : Nat
  notes : List (List Char)
  deriving DecidableEq

/-- `add_note(text)`: strip; append only when non-empty; always report
`ok=True` with the resulting count. -/
def add_note (notes : List (List Char)) (text : List Char) :
    AddRes × List (List Char) :=
  let t := stripL text
  if t = [] then (⟨true, notes.length⟩, notes)
  else (⟨true, (notes ++ [t]).length⟩, notes ++ [t])

/-- `list_notes()`. -/
def list_notes (notes : List (List Char)) : ListRes :=
  ⟨true, notes.length, notes⟩

/-! ## Agent pipeline (`src/agent/graph.py`) -/

/-- `SPOKEN_MAX_LEN`: maximum length of the spoken answer chunk. -/
def SPOKEN_MAX_LEN : Nat := 300

/-- `_normalize(text)`: strip, lower-case, collapse whitespace. -/
def _normalize (text : List Char) : List Char := collapseWs (lowerL (stripL text))

/-- The intents assigned by the router. -/
inductive Intent
  | NOTES | NOTES_LIST | CALC | SEARCH | ANSWER
  deriving DecidableEq

/-- Negation alternatives of `router`:
the regex with the five alternatives don’t, do not, do n’t, never, no,
each delimited by word boundaries. -/
def negationAlts : List (List Char) :=
  [S "don\x27t", S "do not", S "do n\x27t", S "never", S "no"]

/-- Note-add trigger alternatives of `router`, in pattern order. -/
def noteAddAlts : List (List Char) :=
  [S "add note", S "add a note", S "take a note", S "remember to",
   S "note to", S "note:", S "remind me to"]

/-- Note-list trigger alternatives of `router`. -/
def noteListAlts : List (List Char) :=
  [S "list notes", S "show notes", S "read notes", S "what notes", S "my notes"]

/-- Calculation trigger alternatives of `router` (same order is used for the
payload-stripping substitution in `tool_node`). -/
def calcTriggerAlts : List (List Char) :=
  [S "calculate", S "what is", S "what\x27s", S "how much is", S "evaluate",
   S "what about", S "how about"]

/-- Search trigger alternatives of `router`. -/
def searchAlts : List (List Char) :=
  [S "search", S "search for", S "find", S "look up", S "lookup",
   S "look for", S "tell me about"]

/-- `re.search(r"\b\d+\b", t)`: a maximal digit run delimited by word
boundaries exists. -/
def hasDigitToken (t : List Char) : Bool :=
  (List.range t.length).any (fun i =>
    match t.get? i with
    | some c =>
      c.isDigit && boundary t i &&
        boundary t (i + ((t.drop i).takeWhile Char.isDigit).length)
    | none => false)

/-- `re.search(r"[+\-*/%]|\*\*", t)`. -/
def hasOpChar (t : List Char) : Bool :=
  t.any (fun c => c ∈ ['+', '-', '*', '/', '%'])

/-- Rule cascade of `router` on the normalized transcript `t`. -/
def route (t : List Char) : Intent :=
  if t = [] then .ANSWER
  else
    let negation := reSearchAlts negationAlts t
    if reSearchAlts noteAddAlts t && !negation then .NOTES
    else if reSearchAlts noteListAlts t && !negation then .NOTES_LIST
    else if (reSearchAlts calcTriggerAlts t || (hasDigitToken t && hasOpChar t))
        && !negation then .CALC
    else if reSearchAlts searchAlts t && !negation then .SEARCH
    else .ANSWER

/-- `router(state)`: normalize the transcript and classify. -/
def router (transcript : List Char) : Intent := route (_normalize transcript)

/-- A search snippet `{title, summary}` as returned by `wiki_summary`. -/
structure Snippet where
  title : List Char
  summary : List Char
  deriving DecidableEq

/-- The tagged `tool_result` payload: its shape depends on the intent. -/
inductive ToolResult
  | emptyList
  | snippets (l : List Snippet)
  | noteAdd (r : AddRes)
  | noteList (r : ListRes)
  | calcRes (r : CalcRes)
  deriving DecidableEq

/-- Substitution order of the note-trigger stripping in `tool_node` (differs
from the router order: `add a note` precedes `add note`). -/
def notesSubAlts : List (List Char) :=
  [S "add a note", S "add note", S "take a note", S "remember to",
   S "note to", S "note:", S "remind me to"]

/-- Substitution alternatives of the search-trigger stripping in `tool_node`. -/
def searchSubAlts : List (List Char) :=
  [S "search for", S "search", S "look up", S "lookup", S "find", S "look for"]

/-- Leading-filler alternatives `r"^\b(please|for|to)\b\s*"`. -/
def fillerAlts : List (List Char) := [S "please", S "for", S "to"]

/-- `re.sub(r"^\b(please|for|to)\b\s*", "", q)`: anchored at position 0. -/
def dropLeadFiller (q : List Char) : List Char :=
  match fillerAlts.find? (fun a => wordMatchAt q a 0) with
  | some a => (q.drop a.length).dropWhile isSpaceCh
  | none => q

/-- `re.sub(r"[?]+$", "", e)`: drop a trailing run of question marks. -/
def dropTrailingQs (e : List Char) : List Char :=
  (e.reverse.dropWhile (fun c => c = '?')).reverse

/-- Output of `tool_node`: the tool result, the optional `calc_status`, and
the note store after the call. -/
structure DispatchOut where
  tool_result : ToolResult
  calc_status : Option Nat
  store : List (List Char)
  deriving DecidableEq

/-- `tool_node(state)`.  The external `wiki_summary` collaborator is a
parameter (it performs network I/O and is outside the core). -/
def tool_node (wiki : List Char → List Snippet) (intent : Intent)
    (transcript : List Char) (store : List (List Char)) : DispatchOut :=
  let t := _normalize transcript
  match intent with
  | .SEARCH =>
    let q0 := reSubOnce searchSubAlts t
    let q1 := dropLeadFiller q0
    let q := stripL (collapseWs q1)
    ⟨if q = [] then .emptyList else .snippets (wiki q), none, store⟩
  | .NOTES =>
    let payload := stripL (collapseWs (reSubOnce notesSubAlts t))
    if payload = [] then ⟨.noteAdd ⟨false, 0⟩, none, store⟩
    else
      let (r, store') := add_note store payload
      ⟨.noteAdd r, none, store'⟩
  | .NOTES_LIST => ⟨.noteList (list_notes store), none, store⟩
  | .CALC =>
    let e0 := reSubOnce calcTriggerAlts t
    let e1 := dropTrailingQs e0
    let e2 := stripL (collapseWs e1)
    let expr := if e2 = [] then t else e2
    let (res, code) := calcFn expr
    ⟨.calcRes res, some code, store⟩
  | .ANSWER => ⟨.emptyList, none, store⟩

/-- Default error sentence of the CALC composer branch. -/
def calcDefaultErr : List Char := S "invalid expression or unsupported characters"

/-- `answerer(state)`: render the draft answer from the intent, the raw
transcript (used only by the ANSWER fallback) and the tool result. -/
def answerer (intent : Intent) (transcript : List Char) (tr : ToolResult)
    (calc_status : Option Nat) : List Char :=
  match intent with
  | .SEARCH =>
    let snippets := match tr with | .snippets l => l | _ => []
    if snippets = [] then
      S "I couldn’t find anything solid on that topic. Try rephrasing it for me."
    else
      let lines := (snippets.take 2).map (fun s =>
        let summary := s.summary.map (fun c => if c = '\n' then ' ' else c)
        let summary :=
          if 400 < summary.length then rstripL (summary.take 397) ++ S "..."
          else summary
        s.title ++ S ": " ++ summary)
      S "Here’s what I found.\n" ++ joinNl lines
  | .NOTES =>
    let r := match tr with | .noteAdd r => r | _ => ⟨false, 0⟩
    if r.ok then
      let plural := if r.count = 1 then S "note" else S "notes"
      S "Got it. I’ll remember that. You now have " ++ natDigits r.count ++
        ' ' :: plural ++ S "."
    else S "I couldn’t save that note. Please try again."
  | .NOTES_LIST =>
    let notes := match tr with | .noteList r => r.notes | _ => []
    let count := match tr with | .noteList r => r.count | _ => notes.length
    if notes = [] then
      S "You don’t have any notes yet. Just ask me to remember something."
    else
      let lines := (notes.take 5).enum.map (fun p =>
        S "Note " ++ natDigits (p.1 + 1) ++ S ": " ++ p.2 ++ S ".")
      let remaining := count - lines.length
      let tail :=
        if 0 < remaining then S " I’m tracking " ++ natDigits remaining ++ S " more."
        else []
      S "Here’s what you asked me to remember. " ++ joinSpace lines ++ tail
  | .CALC =>
    match calc_status, tr with
    | some 200, .calcRes (.ok v) => S "The answer is " ++ intStr v ++ S "."
    | _, tr' =>
      let err := match tr' with
        | .calcRes (.err m) => if m = [] then calcDefaultErr else m
        | _ => calcDefaultErr
      S "I couldn’t work that out because " ++ err ++ S "."
  | .ANSWER =>
    let clean := stripL transcript
    if clean = [] then S "I didn’t catch that."
    else S "You said “" ++ clean ++ S ".”"

/-- The spoken-answer envelope `(answer, truncated, continuation,
full_answer)` produced by the verifier. -/
structure Envelope where
  answer : List Char
  truncated : Bool
  continuation : List Char
  full_answer : Option (List Char)
  deriving DecidableEq

/-- `str.rfind(c, 0, stop)`: the largest index `< stop` holding `c`, if any. -/
def rfindC (c : Char) (l : List Char) (stop : Nat) : Option Nat :=
  let pre := l.take stop
  (List.range pre.length).reverse.find? (fun i => pre.getD i ' ' == c)

/-- The sentence-terminator cut position of `verifier`: the last `.` before
the budget, else the last `!`, else the last `?` (the chain of
`rfind` calls, `-1` represented as `none`). -/
def sentenceCut (ans : List Char) : Option Nat :=
  match rfindC '.' ans SPOKEN_MAX_LEN with
  | some i => some i
  | none =>
    match rfindC '!' ans SPOKEN_MAX_LEN with
    | some i => some i
    | none => rfindC '?' ans SPOKEN_MAX_LEN

/-- The space-or-hard-cut fallback of `verifier`: cut at the last space
before the budget if it sits at a positive index, else right-trim the hard
cut at exactly the budget. -/
def spaceFallbackCut (ans : List Char) : List Char :=
  match rfindC ' ' ans SPOKEN_MAX_LEN with
  | some j => if 0 < j then stripL (ans.take j) else rstripL (ans.take SPOKEN_MAX_LEN)
  | none => rstripL (ans.take SPOKEN_MAX_LEN)

/-- The spoken chunk cut out of an over-budget answer `ans`: cut after the
last sentence terminator found before the budget at a positive index;
otherwise fall back to the space or hard cut. -/
def cutSpoken (ans : List Char) : List Char :=
  match sentenceCut ans with
  | some i => if 0 < i then stripL (ans.take (i + 1)) else spaceFallbackCut ans
  | none => spaceFallbackCut ans

/-- `verifier(state)` applied to the draft answer: trim; short answers pass
through untruncated; long answers are cut (`cutSpoken`), the left-trimmed
remainder becomes the continuation and the full trimmed draft is kept. -/
def verifier (draft : List Char) : Envelope :=
  let ans := stripL draft
  if ans = [] then ⟨[], false, [], none⟩
  else if ans.length ≤ SPOKEN_MAX_LEN then ⟨ans, false, [], none⟩
  else
    let spoken := cutSpoken ans
    let remainder := lstripL (ans.drop spoken.length)
    ⟨spoken, true, remainder, some ans⟩

/-- The final turn state observable after a turn (the keys of the LangGraph
state that the caller reads). -/
structure TurnState where
  intent : Intent
  tool_result : ToolResult
  draft_answer : List Char
  answer : List Char
  truncated : Bool
  continuation : List Char
  full_answer : Option (List Char)
  calc_status : Option Nat
  deriving DecidableEq

/-- One turn of the compiled pipeline: Router, Dispatcher, Composer,
Verifier.  The compiled graph additionally runs the Composer (and hence the
Verifier) once more on the incomplete pre-dispatch state because of the
stray `detect_intent → compose_answer` edge (see the schedule development
below); since the LangGraph channels are last-value channels and the
post-dispatch Composer/Verifier runs come later, the final state equals this
sequential composition. -/
def runPipeline (wiki : List Char → List Snippet) (transcript : List Char)
    (store : List (List Char)) : TurnState × List (List Char) :=
  let intent := router transcript
  let d := tool_node wiki intent transcript store
  let draft := answerer intent transcript d.tool_result d.calc_status
  let env := verifier draft
  (⟨intent, d.tool_result, draft, env.answer, env.truncated, env.continuation,
    env.full_answer, d.calc_status⟩, d.store)

/-- A `wiki_summary` oracle that never finds anything (the search branch is
not exercised by any claim). -/
def noWiki : List Char → List Snippet := fun _ => []

/-! ## The compiled graph and its superstep schedule (`build_graph`)

`build_graph` declares the nodes and edges below and compiles them with
LangGraph.  LangGraph executes compiled graphs in Pregel supersteps: the
entry node runs first, and a node runs in superstep `n + 1` whenever one of
its predecessors ran in superstep `n`; all nodes activated in the same
superstep run in parallel.  `activeAt n` is therefore the set (ordered,
deduplicated) of nodes running in superstep `n`. -/

/-- The nodes registered by `build_graph` (plus the `END` sentinel). -/
inductive GNode
  | detect_intent | dispatch_tool | compose_answer | verify_answer | endNode
  deriving DecidableEq

/-- The edges registered by `build_graph`, in source order.  Note the edge
`detect_intent → compose_answer` alongside `detect_intent → dispatch_tool`
and `dispatch_tool → compose_answer`. -/
def graphEdges : List (GNode × GNode) :=
  [ (.detect_intent, .dispatch_tool),
    (.detect_intent, .compose_answer),
    (.dispatch_tool, .compose_answer),
    (.compose_answer, .verify_answer),
    (.verify_answer, .endNode) ]

/-- Successors of a node along the registered edges. -/
def succs (n : GNode) : List GNode :=
  (graphEdges.filter (fun e => e.1 == n)).map (·.2)

/-- Nodes activated by one superstep: successors of the currently active
nodes, deduplicated (a node triggered by several predecessors in the same
superstep runs once). -/
def stepActive (act : List GNode) : List GNode :=
  ((act.map succs).flatten).dedup

/-- The nodes running in superstep `n`; the entry point `detect_intent` runs
in superstep 0. -/
def activeAt : Nat → List GNode
  | 0 => [.detect_intent]
  | n + 1 => stepActive (activeAt n)

/-! ## Properties of the trimming helpers -/

/-- The head surviving a `dropWhile` fails the predicate. -/
theorem dropWhile_head_neg {p : Char → Bool} :
    ∀ {l : List Char} {a : Char} {t : List Char}, l.dropWhile p = a :: t → p a = false := by
  intro l
  induction l with
  | nil => intro a t h; simp [List.dropWhile] at h
  | cons x xs ih =>
    intro a t h
    by_cases hx : p x
    · rw [List.dropWhile_cons_of_pos hx] at h; exact ih h
    · rw [List.dropWhile_cons_of_neg hx] at h
      injection h with h1 _
      subst h1
      simpa using hx

/-- Left trimming does not lengthen a list. -/
theorem lstripL_length_le (l : List Char) : (lstripL l).length ≤ l.length :=
  (List.dropWhile_sublist _).length_le

/-- Right trimming does not lengthen a list. -/
theorem rstripL_length_le (l : List Char) : (rstripL l).length ≤ l.length := by
  unfold rstripL
  rw [List.length_reverse]
  calc (l.reverse.dropWhile isSpaceCh).length ≤ l.reverse.length :=
        (List.dropWhile_sublist _).length_le
    _ = l.length := List.length_reverse l

/-- Trimming does not lengthen a list. -/
theorem stripL_length_le (l : List Char) : (stripL l).length ≤ l.length :=
  le_trans (lstripL_length_le _) (rstripL_length_le _)

/-- A list is its left trim preceded by whitespace. -/
theorem lstripL_decomp (l : List Char) :
    ∃ ws, l = ws ++ lstripL l ∧ ∀ c ∈ ws, isSpaceCh c = true := by
  refine ⟨l.takeWhile isSpaceCh, (List.takeWhile_append_dropWhile _ _).symm, ?_⟩
  intro c hc
  exact List.mem_takeWhile_imp hc

/-- A list is its right trim followed by whitespace. -/
theorem rstripL_decomp (l : List Char) :
    ∃ ws, l = rstripL l ++ ws ∧ ∀ c ∈ ws, isSpaceCh c = true := by
  refine ⟨(l.reverse.takeWhile isSpaceCh).reverse, ?_, ?_⟩
  · conv_lhs => rw [← List.reverse_reverse l,
      ← List.takeWhile_append_dropWhile isSpaceCh l.reverse]
    rw [List.reverse_append]
    rfl
  · intro c hc
    rw [List.mem_reverse] at hc
    exact List.mem_takeWhile_imp hc

/-- The right trim is empty exactly when everything is whitespace. -/
theorem rstripL_eq_nil_iff (l : List Char) :
    rstripL l = [] ↔ ∀ c ∈ l, isSpaceCh c = true := by
  unfold rstripL
  rw [List.reverse_eq_nil_iff, List.dropWhile_eq_nil_iff]
  constructor
  · intro h c hc; exact h c (List.mem_reverse.mpr hc)
  · intro h c hc; exact h c (List.mem_reverse.mp hc)

/-- Left trimming keeps a non-whitespace head. -/
theorem lstripL_cons_of_neg {a : Char} {t : List Char} (h : isSpaceCh a = false) :
    lstripL (a :: t) = a :: t :=
  List.dropWhile_cons_of_neg (by simp [h])

/-- The head of a trimmed list is not whitespace. -/
theorem stripL_head_not_space {d : List Char} {a : Char} {t : List Char}
    (h : stripL d = a :: t) : isSpaceCh a = false :=
  dropWhile_head_neg h

/-- The last character of a non-empty trimmed list is not whitespace. -/
theorem stripL_getLast_not_space {d : List Char} (h : stripL d ≠ []) :
    ∃ c, (stripL d).getLast? = some c ∧ isSpaceCh c = false := by
  obtain ⟨ws, hx, _⟩ := lstripL_decomp (rstripL d)
  have h1 : (rstripL d).getLast? = (stripL d).getLast? := by
    conv_lhs => rw [hx]
    exact List.getLast?_append_of_ne_nil _ h
  have h2 : (rstripL d).getLast? = (d.reverse.dropWhile isSpaceCh).head? :=
    List.getLast?_reverse _
  cases hh : d.reverse.dropWhile isSpaceCh with
  | nil =>
    exfalso
    apply h
    have hr : rstripL d = [] := by unfold rstripL; rw [hh]; rfl
    unfold stripL
    rw [hr]
    rfl
  | cons c t =>
    refine ⟨c, ?_, dropWhile_head_neg hh⟩
    rw [← h1, h2, hh]
    rfl

/-- Trimming a list with a non-whitespace head only trims on the right. -/
theorem stripL_eq_rstripL {a : Char} {t : List Char} (ha : isSpaceCh a = false) :
    stripL (a :: t) = rstripL (a :: t) := by
  obtain ⟨ws, hx, _⟩ := rstripL_decomp (a :: t)
  cases hr : rstripL (a :: t) with
  | nil =>
    exfalso
    have := (rstripL_eq_nil_iff (a :: t)).mp hr a (by simp)
    rw [ha] at this
    exact Bool.false_ne_true this
  | cons b t2 =>
    rw [hr, List.cons_append] at hx
    injection hx with h1 _
    unfold stripL
    rw [hr, ← h1]
    exact lstripL_cons_of_neg ha

/-- Bounds extracted from a successful `rfind`. -/
theorem rfindC_bounds {c : Char} {l : List Char} {stop i : Nat}
    (h : rfindC c l stop = some i) : i < stop ∧ i < l.length := by
  unfold rfindC at h
  have hm := List.mem_of_find?_eq_some h
  rw [List.mem_reverse, List.mem_range, List.length_take] at hm
  exact ⟨lt_of_lt_of_le hm inf_le_left, lt_of_lt_of_le hm inf_le_right⟩

/-- A successful sentence cut lies strictly inside the budget. -/
theorem sentenceCut_lt {ans : List Char} {i : Nat} (h : sentenceCut ans = some i) :
    i < SPOKEN_MAX_LEN := by
  unfold sentenceCut at h
  cases h1 : rfindC '.' ans SPOKEN_MAX_LEN with
  | some j => rw [h1] at h; injection h with h2; subst h2; exact (rfindC_bounds h1).1
  | none =>
    rw [h1] at h
    cases h2 : rfindC '!' ans SPOKEN_MAX_LEN with
    | some j => rw [h2] at h; injection h with h3; subst h3; exact (rfindC_bounds h2).1
    | none =>
      rw [h2] at h
      exact (rfindC_bounds h).1

/-- The space/hard fallback is a right-trimmed prefix of the answer, cut at
or before the budget (for answers with a non-whitespace head). -/
theorem spaceFallbackCut_spec {ans : List Char} {a : Char} {t : List Char}
    (hans : ans = a :: t) (ha : isSpaceCh a = false) :
    ∃ k, k ≤ SPOKEN_MAX_LEN ∧ spaceFallbackCut ans = rstripL (ans.take k) := by
  have htake : ∀ m : Nat, 0 < m → stripL (ans.take m) = rstripL (ans.take m) := by
    intro m hm
    cases m with
    | zero => omega
    | succ m' =>
      rw [hans, List.take_succ_cons]
      exact stripL_eq_rstripL ha
  unfold spaceFallbackCut
  cases hj : rfindC ' ' ans SPOKEN_MAX_LEN with
  | some j =>
    dsimp only
    by_cases hj0 : 0 < j
    · rw [if_pos hj0]
      exact ⟨j, le_of_lt (rfindC_bounds hj).1, htake j hj0⟩
    · rw [if_neg hj0]
      exact ⟨SPOKEN_MAX_LEN, le_refl _, rfl⟩
  | none => exact ⟨SPOKEN_MAX_LEN, le_refl _, rfl⟩

/-- The spoken chunk is a right-trimmed prefix of the answer, cut at or
before the budget (for answers with a non-whitespace head). -/
theorem cutSpoken_spec {ans : List Char} {a : Char} {t : List Char}
    (hans : ans = a :: t) (ha : isSpaceCh a = false) :
    ∃ k, k ≤ SPOKEN_MAX_LEN ∧ cutSpoken ans = rstripL (ans.take k) := by
  unfold cutSpoken
  cases hc : sentenceCut ans with
  | some i =>
    dsimp only
    by_cases hi : 0 < i
    · rw [if_pos hi]
      refine ⟨i + 1, sentenceCut_lt hc, ?_⟩
      cases i with
      | zero => omega
      | succ i' =>
        rw [hans, List.take_succ_cons]
        exact stripL_eq_rstripL ha
    · rw [if_neg hi]
      exact spaceFallbackCut_spec hans ha
  | none => exact spaceFallbackCut_spec hans ha

/-- Dropping strictly fewer elements than the length keeps the last element. -/
theorem getLast?_drop_of_lt {l : List Char} {m : Nat} (h : m < l.length) :
    (l.drop m).getLast? = l.getLast? := by
  have hne : l.drop m ≠ [] := by
    rw [Ne, List.drop_eq_nil_iff]
    omega
  conv_rhs => rw [← List.take_append_drop m l]
  exact (List.getLast?_append_of_ne_nil _ hne).symm

/-- A list whose last element is not whitespace does not left-trim to nil. -/
theorem lstripL_ne_nil_of_getLast {l : List Char} {c : Char}
    (hc : l.getLast? = some c) (hs : isSpaceCh c = false) : lstripL l ≠ [] := by
  intro hnil
  have hall := List.dropWhile_eq_nil_iff.mp hnil
  have hlne : l ≠ [] := by
    rintro rfl
    simp at hc
  have hmem : c ∈ l := by
    rw [List.getLast?_eq_getLast l hlne] at hc
    injection hc with hc2
    rw [← hc2]
    exact List.getLast_mem hlne
  have := hall c hmem
  rw [hs] at this
  exact Bool.false_ne_true this

/-! ## Helpers for the note-store and router claims -/

/-- The note text retained by one `add` call: the trimmed text when it is
non-empty, nothing otherwise. -/
def trimKeep (x : List Char) : Option (List Char) :=
  if stripL x = [] then none else some (stripL x)

/-- A finite sequence of `add_note` calls threaded through the store. -/
def runAdds (store : List (List Char)) (texts : List (List Char)) :
    List (List Char) :=
  texts.foldl (fun s x => (add_note s x).2) store

/-- Running a sequence of adds appends exactly the non-empty trimmed texts,
in call order. -/
theorem runAdds_append (texts : List (List Char)) :
    ∀ store, runAdds store texts = store ++ texts.filterMap trimKeep := by
  induction texts with
  | nil => intro store; simp [runAdds]
  | cons x xs ih =>
    intro store
    have hstep : runAdds store (x :: xs) = runAdds ((add_note store x).2) xs := rfl
    rw [hstep, ih]
    by_cases hx : stripL x = []
    · simp [add_note, hx, trimKeep]
    · simp [add_note, hx, trimKeep]

/-- The number of retained notes is the number of calls whose trimmed text is
non-empty. -/
theorem length_filterMap_trimKeep (texts : List (List Char)) :
    (texts.filterMap trimKeep).length = texts.countP (fun x => !(stripL x == [])) := by
  induction texts with
  | nil => rfl
  | cons x xs ih =>
    by_cases hx : stripL x = []
    · simp [trimKeep, hx, List.countP_cons, ih]
    · simp [trimKeep, hx, List.countP_cons, ih]

/-- Searching a sub-list of alternatives implies searching the larger list. -/
theorem reSearchAlts_mono {alts1 alts2 : List (List Char)} {t : List Char}
    (hsub : ∀ a ∈ alts1, a ∈ alts2) (h : reSearchAlts alts1 t = true) :
    reSearchAlts alts2 t = true := by
  unfold reSearchAlts at h ⊢
  rw [List.any_eq_true] at h ⊢
  obtain ⟨i, hi, hmatch⟩ := h
  rw [List.any_eq_true] at hmatch
  obtain ⟨a, ha, hm⟩ := hmatch
  exact ⟨i, hi, List.any_eq_true.mpr ⟨a, hsub a ha, hm⟩⟩

/-- The four negation markers listed by the specification (the router's
pattern additionally contains the alternative `do n’t`). -/
def negationFourAlts : List (List Char) :=
  [S "don\x27t", S "do not", S "never", S "no"]

/-- A concrete 311-character draft used to exercise the truncation branch of
the verifier on a closed input. -/
def longDraft : List Char :=
  S "The pipeline produced a deliberately verbose reply. It keeps going well past the spoken budget so that the verifier must cut it at a sentence boundary. The spoken budget is three hundred characters, which this reply exceeds by a comfortable margin. The remainder of the reply becomes the continuation for later."

/-! ## The claims -/

/-- C1: the claim states that for every transcript the four stages execute
strictly in the order Router, Dispatcher, Composer, Verifier, with no stage
skipped or reordered and no parallelism within one turn (the Composer never
running before the Dispatcher has finished).  The compiled graph refutes
this: because `build_graph` registers the extra edge
`detect_intent → compose_answer` alongside `detect_intent → dispatch_tool`,
superstep 1 activates the Dispatcher and the Composer together, and
superstep 2 runs the Composer a second time in parallel with the Verifier.
This theorem exhibits the superstep schedule of the registered edges. -/
theorem claim1_graph_runs_composer_in_parallel_with_dispatcher :
    activeAt 1 = [GNode.dispatch_tool, GNode.compose_answer] ∧
    activeAt 2 = [GNode.compose_answer, GNode.verify_answer] := by decide

/-- C2: the transcript "what is 9 times 8" is routed to intent `CALC`, the
dispatcher strips the trigger and evaluates "9 * 8", and the composed (and
final) answer is exactly "The answer is 72.". -/
theorem claim2_what_is_9_times_8 :
    (runPipeline noWiki (S "what is 9 times 8") []).1.intent = Intent.CALC ∧
    (runPipeline noWiki (S "what is 9 times 8") []).1.draft_answer =
      S "The answer is 72." ∧
    (runPipeline noWiki (S "what is 9 times 8") []).1.answer =
      S "The answer is 72." := by
  refine ⟨by decide, by decide, by decide⟩

/-- C3: for every draft given to the verifier, `truncated = true` iff the
continuation is non-empty and `full_answer` is the untruncated trimmed
draft; when `truncated = false` the continuation is empty and `full_answer`
is null; and when `truncated = true` the answer followed by the continuation
reconstructs `full_answer` up to whitespace at the cut boundary. -/
theorem claim3_verifier_envelope_invariants (draft : List Char) :
    ((verifier draft).truncated = true ↔
      (verifier draft).continuation ≠ [] ∧
        (verifier draft).full_answer = some (stripL draft)) ∧
    ((verifier draft).truncated = false →
      (verifier draft).continuation = [] ∧ (verifier draft).full_answer = none) ∧
    ((verifier draft).truncated = true →
      ∃ ws, (∀ c ∈ ws, isSpaceCh c = true) ∧
        (verifier draft).full_answer =
          some ((verifier draft).answer ++ (ws ++ (verifier draft).continuation))) := by
  by_cases h0 : stripL draft = []
  · have hv : verifier draft = ⟨[], false, [], none⟩ := by
      unfold verifier; rw [if_pos h0]
    rw [hv]
    refine ⟨?_, ?_, ?_⟩
    · constructor
      · intro h; simp at h
      · rintro ⟨hc, -⟩; exact absurd rfl hc
    · intro _; exact ⟨rfl, rfl⟩
    · intro h; simp at h
  · by_cases h1 : (stripL draft).length ≤ SPOKEN_MAX_LEN
    · have hv : verifier draft = ⟨stripL draft, false, [], none⟩ := by
        unfold verifier; rw [if_neg h0, if_pos h1]
      rw [hv]
      refine ⟨?_, ?_, ?_⟩
      · constructor
        · intro h; simp at h
        · rintro ⟨hc, -⟩; exact absurd rfl hc
      · intro _; exact ⟨rfl, rfl⟩
      · intro h; simp at h
    · obtain ⟨a, t, hans⟩ : ∃ a t, stripL draft = a :: t := by
        cases hA : stripL draft with
        | nil => exact absurd hA h0
        | cons a t => exact ⟨a, t, rfl⟩
      have ha : isSpaceCh a = false := stripL_head_not_space hans
      obtain ⟨k, hk, hcutk⟩ := cutSpoken_spec hans ha
      have hv : verifier draft =
          ⟨cutSpoken (stripL draft), true,
            lstripL ((stripL draft).drop (cutSpoken (stripL draft)).length),
            some (stripL draft)⟩ := by
        unfold verifier; rw [if_neg h0, if_neg h1]
      set ans := stripL draft with hansdef
      set spoken := cutSpoken ans with hspdef
      set remainder := lstripL (ans.drop spoken.length) with hremdef
      have hsplen : spoken.length ≤ k := by
        rw [hcutk]
        refine le_trans (rstripL_length_le _) ?_
        rw [List.length_take]
        exact inf_le_left
      have hlen : SPOKEN_MAX_LEN < ans.length := not_le.mp h1
      have hlt : spoken.length < ans.length :=
        lt_of_le_of_lt (le_trans hsplen hk) hlen
      obtain ⟨ws1, hws1, -⟩ := rstripL_decomp (ans.take k)
      rw [← hcutk] at hws1
      have hANS : ans = spoken ++ (ws1 ++ ans.drop k) := by
        conv_lhs => rw [← List.take_append_drop k ans]
        rw [hws1, List.append_assoc]
      have htakesp : ans.take spoken.length = spoken := by
        conv_lhs => rw [hANS]
        exact List.take_left _ _
      obtain ⟨ws2, hws2, hws2sp⟩ := lstripL_decomp (ans.drop spoken.length)
      have hrec : ans = spoken ++ (ws2 ++ remainder) := by
        conv_lhs => rw [← List.take_append_drop spoken.length ans]
        rw [htakesp, hws2]
      obtain ⟨c, hcl, hcs⟩ := stripL_getLast_not_space h0
      have hlast : (ans.drop spoken.length).getLast? = some c := by
        rw [getLast?_drop_of_lt hlt]
        exact hcl
      have hrne : remainder ≠ [] := lstripL_ne_nil_of_getLast hlast hcs
      rw [hv]
      refine ⟨?_, ?_, ?_⟩
      · constructor
        · intro _; exact ⟨hrne, rfl⟩
        · intro _; rfl
      · intro h; simp at h
      · intro _
        exact ⟨ws2, hws2sp, congrArg some hrec⟩

/-- C4 counterexample: the transcript "take a note milk do n’t" is
non-empty, contains a note-add trigger, and contains none of the four
negation markers the claim lists — yet it is not routed to `NOTES`, because
the negation pattern of the router has the additional alternative `do n’t`. -/
theorem claim4_counterexample :
    ((S "take a note milk do n\x27t") ≠ ([] : List Char) ∧
      reSearchAlts noteAddAlts (S "take a note milk do n\x27t") = true ∧
      reSearchAlts negationFourAlts (S "take a note milk do n\x27t") = false) ∧
    route (S "take a note milk do n\x27t") ≠ Intent.NOTES := by
  refine ⟨⟨by decide, by decide, by decide⟩, by decide⟩

/-- C4 (amended): for every non-empty transcript containing a note-add
trigger and no negation marker of the negation pattern of the router — which contains
`do n’t` in addition to the four markers the claim lists — `route` yields
`NOTES`; and for every transcript containing one of the four listed
markers, every phrase rule is suppressed and `route` yields `ANSWER`. -/
theorem claim4_router_notes_and_negation :
    (∀ t : List Char, t ≠ [] → reSearchAlts noteAddAlts t = true →
      reSearchAlts negationAlts t = false → route t = Intent.NOTES) ∧
    (∀ t : List Char, reSearchAlts negationFourAlts t = true →
      route t = Intent.ANSWER) := by
  constructor
  · intro t ht htrig hneg
    unfold route
    simp [ht, htrig, hneg]
  · intro t hneg4
    by_cases ht : t = []
    · simp [route, ht]
    · have hneg : reSearchAlts negationAlts t = true :=
        reSearchAlts_mono (by decide) hneg4
      simp [route, ht, hneg]

/-- C4 witness: both parts of the amended claim applied at concrete
transcripts, all hypotheses discharged by evaluation. -/
theorem claim4_witness :
    ((S "take a note buy milk" ≠ ([] : List Char)) ∧
      reSearchAlts noteAddAlts (S "take a note buy milk") = true ∧
      reSearchAlts negationAlts (S "take a note buy milk") = false ∧
      route (S "take a note buy milk") = Intent.NOTES) ∧
    (reSearchAlts negationFourAlts (S "never mind") = true ∧
      route (S "never mind") = Intent.ANSWER) :=
  ⟨⟨by decide, by decide, by decide,
    claim4_router_notes_and_negation.1 (S "take a note buy milk")
      (by decide) (by decide) (by decide)⟩,
   ⟨by decide,
    claim4_router_notes_and_negation.2 (S "never mind") (by decide)⟩⟩

/-- C5: after any finite sequence of `add` calls starting from the empty
store, `list()` reports exactly the non-empty trimmed texts in call order,
and its count is the number of calls whose argument trims to non-empty. -/
theorem claim5_note_store_sequence (texts : List (List Char)) :
    (list_notes (runAdds [] texts)).notes = texts.filterMap trimKeep ∧
    (list_notes (runAdds [] texts)).count =
      texts.countP (fun x => !(stripL x == [])) := by
  have h := runAdds_append texts []
  rw [List.nil_append] at h
  constructor
  · exact h
  · show (runAdds [] texts).length = _
    rw [h, length_filterMap_trimKeep]

/-- C6 counterexample: `calc("rm -rf /")` does not return the payload
`{"error": "invalid characters"}` with status 400 that the claim demands. -/
theorem claim6_counterexample :
    calcFn (S "rm -rf /") ≠ (CalcRes.err (S "invalid characters"), 400) := by
  decide

/-- C6 (amended): the sanitizer strips the letters and the hyphen of
"rm -rf /", leaving the expression "/", which is non-empty and consists of
allowed characters only; `calc` therefore reaches evaluation and returns
status 400 with the syntax-error message of the failed `eval`, not the
"invalid characters" payload. -/
theorem claim6_calc_rm_rf_syntax_error :
    _replace_word_operators (stripL (S "rm -rf /")) = S "/" ∧
    calcFn (S "rm -rf /") = (CalcRes.err pySyntaxMsg, 400) ∧
    pySyntaxMsg ≠ S "invalid characters" := by
  refine ⟨by decide, by decide, by decide⟩

/-- C7: the word-number conversion follows the two-register accumulator —
"and" is ignored, unit/tens words add into the current register, a scale
word multiplies it (seeding an empty register with 1), scales of at least
1000 flush current into the running total — and in particular
"three hundred and five" converts to the digit string "305". -/
theorem claim7_word_number_accumulator :
    _convert_number_words (S "three hundred and five") = S "305" ∧
    (∀ total current : Nat,
      wordStep (total, current) (S "and") = some (total, current)) ∧
    (∀ (total current : Nat) (w : List Char) (n : Nat), (w, n) ∈ _NUM_WORDS →
      wordStep (total, current) w = some (total, current + n)) ∧
    (∀ total current : Nat,
      wordStep (total, current) (S "hundred") =
        some (total, (if current = 0 then 1 else current) * 100)) ∧
    (∀ (total current : Nat) (w : List Char) (s : Nat), (w, s) ∈ _SCALE_WORDS →
      1000 ≤ s →
      wordStep (total, current) w =
        some (total + (if current = 0 then 1 else current) * s, 0)) := by
  refine ⟨by decide, fun total current => rfl, ?_, fun total current => rfl, ?_⟩
  · intro total current w n hmem
    fin_cases hmem <;> rfl
  · intro total current w s hmem hs
    fin_cases hmem
    · exact absurd hs (by decide)
    · rfl
    · rfl

/-- C7 witness: the step equations applied to concrete register contents and
words, with the membership hypotheses discharged by evaluation. -/
theorem claim7_witness :
    ((S "three", 3) ∈ _NUM_WORDS ∧
      wordStep (0, 7) (S "three") = some (0, 7 + 3)) ∧
    ((S "thousand", 1000) ∈ _SCALE_WORDS ∧ 1000 ≤ 1000 ∧
      wordStep (2, 3) (S "thousand") =
        some (2 + (if 3 = 0 then 1 else 3) * 1000, 0)) :=
  ⟨⟨by decide,
    claim7_word_number_accumulator.2.2.1 0 7 (S "three") 3 (by decide)⟩,
   ⟨by decide, by decide,
    claim7_word_number_accumulator.2.2.2.2 2 3 (S "thousand") 1000
      (by decide) (by decide)⟩⟩

/-- C8: for every draft of length at most the spoken budget, the verifier is
a trimming identity: the answer is the trimmed draft and nothing is
truncated. -/
theorem claim8_verifier_identity (draft : List Char)
    (h : draft.length ≤ SPOKEN_MAX_LEN) :
    (verifier draft).answer = stripL draft ∧ (verifier draft).truncated = false := by
  by_cases h0 : stripL draft = []
  · have hv : verifier draft = ⟨[], false, [], none⟩ := by
      unfold verifier; rw [if_pos h0]
    rw [hv]
    exact ⟨h0.symm, rfl⟩
  · have h1 : (stripL draft).length ≤ SPOKEN_MAX_LEN :=
      le_trans (stripL_length_le _) h
    have hv : verifier draft = ⟨stripL draft, false, [], none⟩ := by
      unfold verifier; rw [if_neg h0, if_pos h1]
    rw [hv]
    exact ⟨rfl, rfl⟩

/-- C8 witness: the identity applied to a concrete short draft. -/
theorem claim8_witness :
    (S " hello ").length ≤ SPOKEN_MAX_LEN ∧
    ((verifier (S " hello ")).answer = stripL (S " hello ") ∧
      (verifier (S " hello ")).truncated = false) :=
  ⟨by decide, claim8_verifier_identity (S " hello ") (by decide)⟩

set_option maxRecDepth 16000 in
set_option maxHeartbeats 1600000 in
/-- C3 witness: the envelope invariants applied to the concrete over-budget
draft `longDraft`, discharging the truncation hypothesis by evaluation. -/
theorem claim3_witness :
    (verifier longDraft).truncated = true ∧
    ((verifier longDraft).continuation ≠ [] ∧
      (verifier longDraft).full_answer = some (stripL longDraft)) :=
  ⟨by decide, (claim3_verifier_envelope_invariants longDraft).1.mp (by decide)⟩

/-- C9 counterexample: with an empty store, the answer to "list notes" is
not, character for character, the claimed text written with the ASCII
apostrophe. -/
theorem claim9_counterexample :
    (runPipeline noWiki (S "list notes") []).1.answer ≠
      S "You don\x27t have any notes yet. Just ask me to remember something." := by
  decide

/-- C9 (amended): with an empty store, "list notes" is routed to
`NOTES_LIST` and the composed answer is exactly the configured fallback
text, whose apostrophe is the right single quotation mark U+2019. -/
theorem claim9_list_notes_empty_store :
    (runPipeline noWiki (S "list notes") []).1.intent = Intent.NOTES_LIST ∧
    (runPipeline noWiki (S "list notes") []).1.answer =
      S "You don’t have any notes yet. Just ask me to remember something." := by
  refine ⟨by decide, by decide⟩

/-- C10: the store itself never rejects an add — for whitespace-only text,
`add_note` reports `ok = True` with the unchanged count and leaves the note
sequence unchanged (and `ok` is `True` for every input); the
`{"ok": False, "count": 0}` payload for an empty NOTES payload is
synthesized by the dispatcher without touching the store. -/
theorem claim10_add_note_empty_payload :
    (∀ (store : List (List Char)) (text : List Char), stripL text = [] →
      add_note store text = (⟨true, store.length⟩, store)) ∧
    (∀ (store : List (List Char)) (text : List Char),
      (add_note store text).1.ok = true) ∧
    (∀ (wiki : List Char → List Snippet) (store : List (List Char))
      (transcript : List Char),
      stripL (collapseWs (reSubOnce notesSubAlts (_normalize transcript))) = [] →
      tool_node wiki Intent.NOTES transcript store =
        ⟨ToolResult.noteAdd ⟨false, 0⟩, none, store⟩) := by
  refine ⟨?_, ?_, ?_⟩
  · intro store text h
    simp [add_note, h]
  · intro store text
    by_cases h : stripL text = [] <;> simp [add_note, h]
  · intro wiki store transcript h
    unfold tool_node
    dsimp only
    rw [h]
    rfl

/-- C10 witness: the three parts applied at concrete inputs ("   " is
whitespace-only; "add a note" leaves an empty payload after trigger
stripping). -/
theorem claim10_witness :
    (stripL (S "   ") = [] ∧
      add_note [S "a"] (S "   ") = (⟨true, 1⟩, [S "a"])) ∧
    (add_note [] (S "x")).1.ok = true ∧
    (stripL (collapseWs (reSubOnce notesSubAlts (_normalize (S "add a note")))) = [] ∧
      tool_node noWiki Intent.NOTES (S "add a note") [S "a"] =
        ⟨ToolResult.noteAdd ⟨false, 0⟩, none, [S "a"]⟩) :=
  ⟨⟨by decide, claim10_add_note_empty_payload.1 [S "a"] (S "   ") (by decide)⟩,
   claim10_add_note_empty_payload.2.1 [] (S "x"),
   ⟨by decide,
    claim10_add_note_empty_payload.2.2 noWiki [S "a"] (S "add a note") (by decide)⟩⟩

end VoiceAgent
